import Mathlib

/-!
# Batched SQS output of gosoline: chunking, message building, error aggregation

Shallow embedding of

* `chunk` from `pkg/ddb/reflect.go`,
* `sqsOutput.Write`, `sqsOutput.buildSqsMessages`, `sqsOutput.buildSqsMessage`
  and `sqsOutput.GetMaxBatchSize` from `pkg/stream/output_sqs.go`,

followed by the properties of the design document that concern them.
-/

set_option autoImplicit false

namespace Gosoline

universe u

/-! ## Results of a Go loop run with fuel -/

/-- Outcome of running a Go function whose loop is bounded by fuel in the model:
it returns a value, it panics, or the fuel ran out before the loop ended. -/
inductive Outcome (β : Type u) where
  | done (value : β)
  | panicked
  | outOfFuel
  deriving Repr, DecidableEq

/-! ## `chunk` (pkg/ddb/reflect.go) -/

/-- The Go slice expression `batch[i:j]` for `0 ≤ i ≤ j ≤ len(batch)`. -/
def sliceRange {α : Type u} (batch : List α) (i j : Int) : List α :=
  (batch.drop i.toNat).take (j - i).toNat

/-- The `for i := 0; i < len(batch); i += size` loop of `chunk`, started at index `i`
with the sub-batches `chunks` collected so far. Every evaluation of the loop condition
costs one unit of fuel. The slice expression `batch[i:end]` panics unless
`0 ≤ i ≤ end` (`end ≤ len(batch)` always holds after the clamp).

Indices are unbounded integers: whenever the loop body runs with `0 < size`, either
`i = 0` or `size ≤ i < len(batch)`, so `i + size` stays below `2 * len(batch)` and the
64-bit addition of the source cannot wrap. -/
def chunkLoop {α : Type u} (batch : List α) (size : Int) :
    Nat → Int → List (List α) → Outcome (List (List α))
  | 0, _, _ => Outcome.outOfFuel
  | fuel + 1, i, chunks =>
    if i < (batch.length : Int) then
      let end0 := i + size
      let end1 := if end0 > (batch.length : Int) then (batch.length : Int) else end0
      if 0 ≤ i ∧ i ≤ end1 then
        chunkLoop batch size fuel (i + size) (chunks ++ [sliceRange batch i end1])
      else
        Outcome.panicked
    else
      Outcome.done chunks

/-- The function `chunk(batch, size)` of `pkg/ddb/reflect.go`, run with `fuel` evaluations
of its loop condition. `var chunks [][]interface{}` starts as the nil slice. -/
def chunk {α : Type u} (fuel : Nat) (batch : List α) (size : Int) : Outcome (List (List α)) :=
  chunkLoop batch size fuel 0 []

/-! ## Consecutive sub-batches, as the design document words them -/

/-- Splitting a list into consecutive pieces of `n` elements, the last one possibly
shorter; `fuel` bounds the number of pieces. -/
def splitEveryFuel {α : Type u} (n : Nat) : Nat → List α → List (List α)
  | 0, _ => []
  | _ + 1, [] => []
  | fuel + 1, x :: xs => (x :: xs).take n :: splitEveryFuel n fuel ((x :: xs).drop n)

/-- The consecutive sub-batches of `n` elements of a list (for `0 < n`). -/
def splitEvery {α : Type u} (n : Nat) (xs : List α) : List (List α) :=
  splitEveryFuel n xs.length xs

/-- The number `ceil(len / size)`. -/
def ceilDiv (len size : Nat) : Nat := (len + size - 1) / size

/-! ## Go errors and `multierror.Append` -/

/-- Go `error` values, as far as the code under study can tell them apart: the only
inspection it makes of an error (through `multierror.Append`) is whether its dynamic type
is `*multierror.Error`.

* `leaf` is an error of any other type that wraps nothing,
* `wrap` is the result of `fmt.Errorf` with one `%w` verb,
* `multi` is a non-nil `*multierror.Error` with its `Errors` field,
* `multiNil` is the nil `*multierror.Error` stored in a non-nil `error` interface.

A nil `error` interface is `none : Option GoError`. -/
inductive GoError where
  | leaf (text : String)
  | wrap (text : String) (cause : GoError)
  | multi (errors : List GoError)
  | multiNil

/-- The dynamic type of the error is `*multierror.Error`. -/
def GoError.isAggregate : GoError → Bool
  | GoError.multi _ => true
  | GoError.multiNil => true
  | _ => false

/-- Modelled from the spec: the body of the flattening loop of `multierror.Append`
(github.com/hashicorp/go-multierror, a dependency that is not part of the repository),
the "append error to running multi-error" combinator of the design notes. A nil error
adds nothing, an aggregate adds its own entries, any other error adds itself. -/
def multierrorFlatten (acc : List GoError) : Option GoError → List GoError
  | none => acc
  | some (GoError.multi es) => acc ++ es
  | some GoError.multiNil => acc
  | some e => acc ++ [e]

/-- Modelled from the spec: `multierror.Append(err, errs...)` of
github.com/hashicorp/go-multierror (not part of the repository), the ordered error
accumulator of the design notes. When `err` is an aggregate the further errors are
flattened into it; otherwise a fresh aggregate is filled with `err` (if non-nil) and
`errs`. The result is always a non-nil `*multierror.Error`. -/
def multierrorAppend (err : Option GoError) (errs : List (Option GoError)) : GoError :=
  match err with
  | some (GoError.multi es) => GoError.multi (errs.foldl multierrorFlatten es)
  | some GoError.multiNil => GoError.multi (errs.foldl multierrorFlatten [])
  | some e => GoError.multi ((some e :: errs).foldl multierrorFlatten [])
  | none => GoError.multi (errs.foldl multierrorFlatten [])

/-! ## `funk.Chunk` -/

/-- The dynamic value returned by `funk.Chunk`: the input slice itself, or a slice of
slices. -/
inductive ChunkResult (α : Type u) where
  | flat (arr : List α)
  | nested (chunks : List (List α))

/-- Modelled from the spec: the loop of `funk.Chunk` (github.com/thoas/go-funk, a
dependency that is not part of the repository), the Batch Chunker of section 4.3. It
walks the elements with their index `i`; at every index divisible by `size` the current
sub-batch `itemSlice` (if one was started) is pushed and a new one is started, the element
is added to the current sub-batch, and at the last index the current sub-batch is
pushed. -/
def funkChunkLoop {α : Type u} (size : Int) (length : Nat) :
    List α → Nat → List (List α) → Option (List α) → List (List α)
  | [], _, resultSlice, _ => resultSlice
  | x :: rest, i, resultSlice, itemSlice =>
    let started : List (List α) × Option (List α) :=
      if (i : Int) % size = 0 ∨ i = 0 then
        (match itemSlice with
          | some s => resultSlice ++ [s]
          | none => resultSlice, some [])
      else (resultSlice, itemSlice)
    let itemSlice1 := started.2.map (fun s => s ++ [x])
    let resultSlice1 :=
      if i + 1 = length then
        (match itemSlice1 with
          | some s => started.1 ++ [s]
          | none => started.1)
      else started.1
    funkChunkLoop size length rest (i + 1) resultSlice1 itemSlice1

/-- Modelled from the spec: `funk.Chunk(arr, size)` of github.com/thoas/go-funk (not
part of the repository), the Batch Chunker of section 4.3: consecutive sub-batches of
`size` elements, the last one possibly shorter, none for the empty input. With `size = 0`
the library hands back `arr` itself, which is what makes the type assertion in `Write`
fail. -/
def funkChunk {α : Type u} (arr : List α) (size : Int) : ChunkResult α :=
  if size = 0 then ChunkResult.flat arr
  else ChunkResult.nested (funkChunkLoop size arr.length arr 0 [] none)

/-! ## The SQS output (pkg/stream/output_sqs.go) -/

/-- The constant `sqsOutputBatchSize`. -/
def sqsOutputBatchSize : Int := 10

/-- The envelope `sqs.Message`; a nil `*string` is `none`. -/
structure Message where
  DelaySeconds : Int
  MessageGroupId : Option String
  MessageDeduplicationId : Option String
  Body : Option String
  deriving DecidableEq, Repr

/-- A `WritableMessage` as `Write` sees it: the attribute map returned by
`getAttributes(msg)` (keys with dynamically typed values of type `V`; the first entry of a
key is the one the map holds) and the result of `msg.MarshalToString()`. -/
structure WritableMessage (V : Type) where
  attributes : List (String × V)
  MarshalToString : Except GoError String

/-- What `buildSqsMessage` takes from other packages: the three attribute keys of the
`sqs` package and the coercions `cast.ToInt32E` and `cast.ToStringE` on attribute
values. -/
structure Env (V : Type) where
  AttributeSqsDelaySeconds : String
  AttributeSqsMessageGroupId : String
  AttributeSqsMessageDeduplicationId : String
  ToInt32E : V → Except GoError Int
  ToStringE : V → Except GoError String

/-- Severity of a log line. -/
inductive LogLevel where
  | warn
  | error
  deriving DecidableEq, Repr

/-- One line written to the logger. -/
structure LogEntry where
  level : LogLevel
  text : String
  deriving DecidableEq, Repr

/-- The queue behind the output: `SendBatch` acts on the state `σ` of the transport and
returns an error or nil; `GetName` is the queue name. -/
structure Queue (σ : Type) where
  SendBatch : σ → List Message → σ × Option GoError
  GetName : String

/-- The receiver `sqsOutput`: its queue and the setting
`settings.Fifo.ContentBasedDeduplication`. -/
structure SqsOutput (σ : Type) where
  queue : Queue σ
  ContentBasedDeduplication : Bool

/-- One observed call of `SendBatch`: the messages passed and the error returned. -/
structure SendCall where
  messages : List Message
  err : Option GoError

/-- What `Write` acts on: the state of the transport, the calls of `SendBatch` observed
so far and the lines logged so far. -/
structure World (σ : Type) where
  queue : σ
  calls : List SendCall
  log : List LogEntry

/-- The lookup and coercion of the delay attribute in `buildSqsMessage`
(`var delay int32` stays 0 when the key is absent). -/
def coerceDelay {V : Type} (env : Env V) (attributes : List (String × V)) :
    Except GoError Int :=
  match attributes.lookup env.AttributeSqsDelaySeconds with
  | some d =>
    match env.ToInt32E d with
    | Except.ok delay => Except.ok delay
    | Except.error err =>
      Except.error (GoError.wrap
        ("the type of the " ++ env.AttributeSqsDelaySeconds
          ++ " attribute with value %v should be castable to int32: %w") err)
  | none => Except.ok 0

/-- The lookup and coercion of one of the two string attributes in `buildSqsMessage`
(the variable stays `""` when the key is absent). -/
def coerceString {V : Type} (env : Env V) (attributes : List (String × V)) (key : String) :
    Except GoError String :=
  match attributes.lookup key with
  | some d =>
    match env.ToStringE d with
    | Except.ok s => Except.ok s
    | Except.error err =>
      Except.error (GoError.wrap
        ("the type of the " ++ key
          ++ " attribute with value %v should be castable to string: %w") err)
  | none => Except.ok ""

/-- The method `sqsOutput.buildSqsMessage`: the lines it logs and the envelope or the
error it returns. -/
def buildSqsMessage {V σ : Type} (env : Env V) (o : SqsOutput σ) (msg : WritableMessage V) :
    List LogEntry × Except GoError Message :=
  let attributes := msg.attributes
  match coerceDelay env attributes with
  | Except.error err => ([], Except.error err)
  | Except.ok delay =>
  match coerceString env attributes env.AttributeSqsMessageGroupId with
  | Except.error err => ([], Except.error err)
  | Except.ok messageGroupId =>
  match coerceString env attributes env.AttributeSqsMessageDeduplicationId with
  | Except.error err => ([], Except.error err)
  | Except.ok messageDeduplicationId =>
    let log : List LogEntry :=
      if o.ContentBasedDeduplication && messageDeduplicationId == "" then
        [{ level := LogLevel.warn,
           text := "writing message to queue " ++ o.queue.GetName
             ++ " (which is configured to use content based deduplication)"
             ++ " without message deduplication id" }]
      else []
    match msg.MarshalToString with
    | Except.error err => (log, Except.error err)
    | Except.ok body =>
      (log, Except.ok
        { DelaySeconds := delay
          Body := some body
          MessageGroupId := if messageGroupId != "" then some messageGroupId else none
          MessageDeduplicationId :=
            if messageDeduplicationId != "" then some messageDeduplicationId else none })

/-- The state of the loop of `buildSqsMessages`: lines logged, `sqsMessages`, `result`. -/
structure BuildState where
  log : List LogEntry
  sqsMessages : List Message
  result : Option GoError

/-- One iteration of the loop of `buildSqsMessages`. -/
def buildSqsMessagesStep {V σ : Type} (env : Env V) (o : SqsOutput σ) (st : BuildState)
    (msg : WritableMessage V) : BuildState :=
  match buildSqsMessage env o msg with
  | (l, Except.error err) =>
    { log := st.log ++ l
      sqsMessages := st.sqsMessages
      result := some (multierrorAppend st.result [some err]) }
  | (l, Except.ok sqsMessage) =>
    { log := st.log ++ l
      sqsMessages := st.sqsMessages ++ [sqsMessage]
      result := st.result }

/-- The method `sqsOutput.buildSqsMessages`. -/
def buildSqsMessages {V σ : Type} (env : Env V) (o : SqsOutput σ)
    (messages : List (WritableMessage V)) : BuildState :=
  messages.foldl (buildSqsMessagesStep env o) { log := [], sqsMessages := [], result := none }

/-- The state of the loop of `Write`: the world and `result`. -/
structure WriteState (σ : Type) where
  world : World σ
  result : Option GoError

/-- One iteration of the loop of `Write` over the sub-batches. -/
def writeStep {V σ : Type} (env : Env V) (o : SqsOutput σ) (st : WriteState σ)
    (chunk : List (WritableMessage V)) : WriteState σ :=
  let built := buildSqsMessages env o chunk
  let world1 : World σ := { st.world with log := st.world.log ++ built.log }
  let result1 : Option GoError :=
    match built.result with
    | some err => some (multierrorAppend st.result [some err])
    | none => st.result
  if built.sqsMessages.length = 0 then
    { world := world1, result := result1 }
  else
    let sent := o.queue.SendBatch world1.queue built.sqsMessages
    let world2 : World σ :=
      { world1 with
        queue := sent.1
        calls := world1.calls ++ [{ messages := built.sqsMessages, err := sent.2 }] }
    let result2 : Option GoError :=
      match sent.2 with
      | some err => some (multierrorAppend result1 [some err])
      | none => result1
    { world := world2, result := result2 }

/-- The method `sqsOutput.Write`: the world after the call and the error returned
(`none` is nil). -/
def Write {V σ : Type} (env : Env V) (o : SqsOutput σ) (w : World σ)
    (batch : List (WritableMessage V)) : World σ × Option GoError :=
  match funkChunk batch sqsOutputBatchSize with
  | ChunkResult.nested chunks =>
    let final := chunks.foldl (writeStep env o) { world := w, result := none }
    match final.result with
    | some result =>
      (final.world,
        some (GoError.wrap "there were errors on writing to the sqs stream: %w" result))
    | none => (final.world, none)
  | ChunkResult.flat _ =>
    let err := GoError.leaf "can not chunk messages for sending to sqs"
    ({ w with log := w.log ++
        [{ level := LogLevel.error, text := "can not chunk messages for sending to sqs: %w" }] },
      some err)

/-- The method `sqsOutput.WriteOne`. -/
def WriteOne {V σ : Type} (env : Env V) (o : SqsOutput σ) (w : World σ)
    (record : WritableMessage V) : World σ × Option GoError :=
  Write env o w [record]

/-- The method `sqsOutput.GetMaxBatchSize` (the value behind the returned pointer). -/
def GetMaxBatchSize : Int := 10

/-- The calls of `SendBatch` made during `Write`: those observed after the call that
were not there before. -/
def newCalls {V σ : Type} (env : Env V) (o : SqsOutput σ) (w : World σ)
    (batch : List (WritableMessage V)) : List SendCall :=
  (Write env o w batch).1.calls.drop w.calls.length

/-! ## Vocabulary of the properties -/

/-- The envelope of a message that builds successfully. -/
def builtEnvelope {V σ : Type} (env : Env V) (o : SqsOutput σ) (msg : WritableMessage V) :
    Option Message :=
  match (buildSqsMessage env o msg).2 with
  | Except.ok m => some m
  | Except.error _ => none

/-- The error of a message that fails to build. -/
def buildError {V σ : Type} (env : Env V) (o : SqsOutput σ) (msg : WritableMessage V) :
    Option GoError :=
  match (buildSqsMessage env o msg).2 with
  | Except.ok _ => none
  | Except.error err => some err

/-- The envelopes of the messages of a list that build successfully, in message order. -/
def envelopesOf {V σ : Type} (env : Env V) (o : SqsOutput σ)
    (messages : List (WritableMessage V)) : List Message :=
  messages.filterMap (builtEnvelope env o)

/-- The build errors of the messages of a list that fail to build, in message order. -/
def buildErrorsOf {V σ : Type} (env : Env V) (o : SqsOutput σ)
    (messages : List (WritableMessage V)) : List GoError :=
  messages.filterMap (buildError env o)

/-- The sub-batches of `sqsOutputBatchSize` messages of a batch. -/
def subBatches {V : Type} (batch : List (WritableMessage V)) : List (List (WritableMessage V)) :=
  splitEvery sqsOutputBatchSize.toNat batch

/-- The dispatches the design document asks for: split the batch into consecutive
sub-batches of 10, replace each by the envelopes of its messages that build, drop the empty
ones. -/
def expectedDispatches {V σ : Type} (env : Env V) (o : SqsOutput σ)
    (batch : List (WritableMessage V)) : List (List Message) :=
  ((subBatches batch).map (envelopesOf env o)).filter (fun ms => !ms.isEmpty)

/-- What happened to one sub-batch: the sub-batch and the call of `SendBatch` made for it,
if one was made. -/
structure ChunkRun (V : Type) where
  chunk : List (WritableMessage V)
  call : Option SendCall

/-- The sub-batches processed in order against the transport started in state `s`: a
sub-batch none of whose messages builds gets no call, any other is sent with the envelopes
that built, and the transport moves on whatever it answered. -/
def runChunks {V σ : Type} (env : Env V) (o : SqsOutput σ) :
    σ → List (List (WritableMessage V)) → List (ChunkRun V)
  | _, [] => []
  | s, c :: cs =>
    if (envelopesOf env o c).length = 0 then
      { chunk := c, call := none } :: runChunks env o s cs
    else
      let sent := o.queue.SendBatch s (envelopesOf env o c)
      { chunk := c, call := some { messages := envelopesOf env o c, err := sent.2 } }
        :: runChunks env o sent.1 cs

/-- The calls made along a run. -/
def callsOf {V : Type} (runs : List (ChunkRun V)) : List SendCall :=
  runs.filterMap (fun r => r.call)

/-- The errors of one sub-batch: the build errors of its messages in message order, then
the error of its dispatch if it was dispatched and the dispatch failed. -/
def chunkErrors {V σ : Type} (env : Env V) (o : SqsOutput σ) (r : ChunkRun V) : List GoError :=
  buildErrorsOf env o r.chunk ++
    (match r.call with
      | some c => c.err.toList
      | none => [])

/-- The underlying errors of a call of `Write` in the order the design document lists
them: sub-batch by sub-batch, build errors first, then the dispatch error. -/
def underlyingErrors {V σ : Type} (env : Env V) (o : SqsOutput σ) (w : World σ)
    (batch : List (WritableMessage V)) : List GoError :=
  (runChunks env o w.queue (subBatches batch)).flatMap (chunkErrors env o)

/-- The entries an error contributes to an aggregate it is appended to. -/
def entriesOf (e : GoError) : List GoError := multierrorFlatten [] (some e)

/-- Appending errors one after the other to a running `result`. -/
def pushAll (result : Option GoError) (errs : List GoError) : Option GoError :=
  errs.foldl (fun r e => some (multierrorAppend r [some e])) result

/-- The number of messages of a batch that fail to build. -/
def failedBuilds {V σ : Type} (env : Env V) (o : SqsOutput σ)
    (batch : List (WritableMessage V)) : Nat :=
  (buildErrorsOf env o batch).length

/-- The number of calls of `SendBatch` made during `Write` that returned an error. -/
def failedSends {V σ : Type} (env : Env V) (o : SqsOutput σ) (w : World σ)
    (batch : List (WritableMessage V)) : Nat :=
  ((newCalls env o w batch).filter (fun c => c.err.isSome)).length

/-- The message builds successfully: `buildSqsMessage` returns no error. -/
def builds {V σ : Type} (env : Env V) (o : SqsOutput σ) (msg : WritableMessage V) : Bool :=
  match (buildSqsMessage env o msg).2 with
  | Except.ok _ => true
  | Except.error _ => false

/-- The text of the error `Write` returns around its aggregate. -/
def writeErrorText : String := "there were errors on writing to the sqs stream: %w"

/-- The result of `buildSqsMessage`, spelled out from the three coercions and the
serialization. -/
def buildOutcome (delay : Except GoError Int) (group dedup body : Except GoError String) :
    Except GoError Message :=
  match delay with
  | Except.error err => Except.error err
  | Except.ok delay =>
  match group with
  | Except.error err => Except.error err
  | Except.ok messageGroupId =>
  match dedup with
  | Except.error err => Except.error err
  | Except.ok messageDeduplicationId =>
  match body with
  | Except.error err => Except.error err
  | Except.ok body =>
    Except.ok
      { DelaySeconds := delay
        Body := some body
        MessageGroupId := if messageGroupId != "" then some messageGroupId else none
        MessageDeduplicationId :=
          if messageDeduplicationId != "" then some messageDeduplicationId else none }

/-! ## Sample inputs -/

/-- A dynamically typed attribute value: an integer, a string, or anything else. -/
inductive AttrValue where
  | int (n : Int)
  | str (s : String)
  | other
  deriving DecidableEq, Repr

/-- A sample environment: the attribute keys as three distinct strings, an integer
coercion that accepts integers only and a string coercion that accepts strings only. -/
def sampleEnv : Env AttrValue where
  AttributeSqsDelaySeconds := "sqsDelaySeconds"
  AttributeSqsMessageGroupId := "sqsMessageGroupId"
  AttributeSqsMessageDeduplicationId := "sqsMessageDeduplicationId"
  ToInt32E := fun v =>
    match v with
    | AttrValue.int n => Except.ok n
    | _ => Except.error (GoError.leaf "unable to cast to int32")
  ToStringE := fun v =>
    match v with
    | AttrValue.str s => Except.ok s
    | _ => Except.error (GoError.leaf "unable to cast to string")

/-- A transport without state whose `SendBatch` always answers `answer`. -/
def constQueue (answer : Option GoError) : Queue Unit where
  SendBatch := fun s _ => (s, answer)
  GetName := "sample-queue"

/-- A transport that counts its calls and fails exactly the first one. -/
def firstFailsQueue : Queue Nat where
  SendBatch := fun s _ => (s + 1, if s = 0 then some (GoError.leaf "send failed") else none)
  GetName := "sample-queue"

/-- A sample output over a transport that always answers `answer`. -/
def constOutput (answer : Option GoError) : SqsOutput Unit where
  queue := constQueue answer
  ContentBasedDeduplication := false

/-- A transport without state whose `SendBatch` always fails with an aggregate of two
errors, as a transport that itself collects errors with `multierror` does. -/
def aggregateOutput : SqsOutput Unit where
  queue :=
    { SendBatch := fun s _ =>
        (s, some (GoError.multi [GoError.leaf "first half", GoError.leaf "second half"]))
      GetName := "sample-queue" }
  ContentBasedDeduplication := false

/-- The world before any call. -/
def emptyWorld {σ : Type} (s : σ) : World σ := { queue := s, calls := [], log := [] }

/-- A plain message: no attributes, body `body`. -/
def plainMessage (body : String) : WritableMessage AttrValue :=
  { attributes := [], MarshalToString := Except.ok body }

/-- A message whose delay attribute is a string, which the sample coercion rejects. -/
def badDelayMessage (body : String) : WritableMessage AttrValue :=
  { attributes := [("sqsDelaySeconds", AttrValue.str "soon")],
    MarshalToString := Except.ok body }

/-- A message whose serialization fails with `err`. -/
def unserializableMessage (err : GoError) : WritableMessage AttrValue :=
  { attributes := [], MarshalToString := Except.error err }

/-- A message with all three attributes set. -/
def fullMessage : WritableMessage AttrValue :=
  { attributes := [("sqsMessageGroupId", AttrValue.str "group-1"),
                   ("sqsDelaySeconds", AttrValue.int 5),
                   ("unrelated", AttrValue.other),
                   ("sqsMessageDeduplicationId", AttrValue.str "dedup-1")],
    MarshalToString := Except.ok "payload" }

/-- A batch of three messages: one that builds, one whose delay attribute cannot be
coerced, one whose serialization fails. -/
def mixedBatch : List (WritableMessage AttrValue) :=
  [plainMessage "a", badDelayMessage "b", unserializableMessage (GoError.leaf "no body")]

/-- The build error of the message of `mixedBatch` whose delay cannot be coerced. -/
def badDelayError : GoError :=
  GoError.wrap
    "the type of the sqsDelaySeconds attribute with value %v should be castable to int32: %w"
    (GoError.leaf "unable to cast to int32")

/-- A sample output over the transport that fails exactly its first call. -/
def firstFailsOutput : SqsOutput Nat where
  queue := firstFailsQueue
  ContentBasedDeduplication := false

/-- Twelve plain messages. -/
def twelveMessages : List (WritableMessage AttrValue) :=
  (List.range 12).map (fun i => plainMessage (toString i))

/-! ### Lemmas on `splitEvery` -/

section SplitEvery

variable {α : Type u}

theorem splitEveryFuel_nil (n fuel : Nat) : splitEveryFuel n fuel ([] : List α) = [] := by
  cases fuel <;> rfl

theorem splitEveryFuel_enough (n : Nat) (hn : 0 < n) :
    ∀ (fuel : Nat) (xs : List α), xs.length ≤ fuel →
      splitEveryFuel n fuel xs = splitEveryFuel n xs.length xs := by
  intro fuel
  induction fuel using Nat.strong_induction_on with
  | _ fuel ih =>
    intro xs hlen
    cases xs with
    | nil => simp [splitEveryFuel_nil]
    | cons x xs =>
      cases fuel with
      | zero => simp at hlen
      | succ fuel =>
        have hd : ((x :: xs).drop n).length ≤ xs.length := by
          simp only [List.length_drop, List.length_cons]; omega
        simp only [List.length_cons, splitEveryFuel]
        congr 1
        rw [ih fuel (Nat.lt_succ_self _) _ (by simp at hlen; omega)]
        rw [ih xs.length (by simp at hlen; omega) _ hd]

theorem splitEvery_nil (n : Nat) : splitEvery n ([] : List α) = [] := rfl

theorem splitEvery_of_ne_nil (n : Nat) (hn : 0 < n) (xs : List α) (hxs : xs ≠ []) :
    splitEvery n xs = xs.take n :: splitEvery n (xs.drop n) := by
  cases xs with
  | nil => exact absurd rfl hxs
  | cons x xs =>
    have hd : ((x :: xs).drop n).length ≤ xs.length := by
      simp only [List.length_drop, List.length_cons]; omega
    simp only [splitEvery, List.length_cons, splitEveryFuel]
    congr 1
    exact splitEveryFuel_enough n hn _ _ hd

theorem splitEvery_of_length_le (n : Nat) (hn : 0 < n) (xs : List α) (hxs : xs ≠ [])
    (hlen : xs.length ≤ n) : splitEvery n xs = [xs] := by
  rw [splitEvery_of_ne_nil n hn xs hxs, List.take_of_length_le hlen,
    List.drop_of_length_le hlen, splitEvery_nil]

/-- Induction along the sub-batches: a property of lists that holds for the empty list
and passes from `xs.drop n` to a non-empty `xs` holds for every list. -/
theorem splitEvery_induction (n : Nat) (hn : 0 < n) (P : List α → Prop)
    (hnil : P []) (hstep : ∀ xs : List α, xs ≠ [] → P (xs.drop n) → P xs) :
    ∀ xs : List α, P xs := by
  intro xs
  generalize hk : xs.length = k
  induction k using Nat.strong_induction_on generalizing xs with
  | _ k ih =>
    by_cases hxs : xs = []
    · subst hxs; exact hnil
    · apply hstep xs hxs
      have hpos : 0 < xs.length := List.length_pos.mpr hxs
      exact ih (xs.drop n).length (by simp only [List.length_drop]; omega) _ rfl

theorem splitEvery_flatten (n : Nat) (hn : 0 < n) (xs : List α) :
    (splitEvery n xs).flatten = xs := by
  induction xs using splitEvery_induction n hn with
  | hnil => rfl
  | hstep xs hxs ih =>
    rw [splitEvery_of_ne_nil n hn xs hxs, List.flatten_cons, ih, List.take_append_drop]

theorem splitEvery_length (n : Nat) (hn : 0 < n) (xs : List α) :
    (splitEvery n xs).length = ceilDiv xs.length n := by
  induction xs using splitEvery_induction n hn with
  | hnil =>
    simp only [splitEvery_nil, List.length_nil, ceilDiv, Nat.zero_add]
    exact (Nat.div_eq_of_lt (by omega)).symm
  | hstep xs hxs ih =>
    have hpos : 0 < xs.length := List.length_pos.mpr hxs
    rw [splitEvery_of_ne_nil n hn xs hxs, List.length_cons, ih, List.length_drop]
    unfold ceilDiv
    by_cases hle : xs.length ≤ n
    · have h1 : xs.length - n + n - 1 = n - 1 := by omega
      rw [h1, Nat.div_eq_of_lt (by omega)]
      have h2 : (xs.length + n - 1) / n = 1 := by
        apply Nat.div_eq_of_lt_le <;> omega
      omega
    · have h1 : xs.length + n - 1 = (xs.length - n + n - 1) + n := by omega
      rw [h1, Nat.add_div_right _ hn]

theorem splitEvery_mem_length (n : Nat) (hn : 0 < n) (xs : List α) :
    ∀ c ∈ splitEvery n xs, 0 < c.length ∧ c.length ≤ n := by
  induction xs using splitEvery_induction n hn with
  | hnil => intro c hc; simp [splitEvery_nil] at hc
  | hstep xs hxs ih =>
    have hpos : 0 < xs.length := List.length_pos.mpr hxs
    intro c hc
    rw [splitEvery_of_ne_nil n hn xs hxs, List.mem_cons] at hc
    rcases hc with rfl | hc
    · simp only [List.length_take]; omega
    · exact ih c hc

/-- Every sub-batch but the last one is full. -/
theorem splitEvery_dropLast_length (n : Nat) (hn : 0 < n) (xs : List α) :
    ∀ c ∈ (splitEvery n xs).dropLast, c.length = n := by
  induction xs using splitEvery_induction n hn with
  | hnil => intro c hc; simp [splitEvery_nil] at hc
  | hstep xs hxs ih =>
    intro c hc
    rw [splitEvery_of_ne_nil n hn xs hxs] at hc
    by_cases hd : xs.drop n = []
    · rw [hd, splitEvery_nil] at hc
      simp at hc
    · rw [splitEvery_of_ne_nil n hn _ hd, List.dropLast_cons₂, List.mem_cons] at hc
      rcases hc with rfl | hc
      · have : n < xs.length := by
          by_contra hcon
          exact hd (List.drop_of_length_le (by omega))
        simp only [List.length_take]; omega
      · rw [← splitEvery_of_ne_nil n hn _ hd] at hc
        exact ih c hc

end SplitEvery

/-! ### `chunk` computes the consecutive sub-batches -/

section ChunkLemmas

variable {α : Type u}

theorem sliceRange_eq (batch : List α) (i n : Nat) :
    sliceRange batch (i : Int) ((i : Int) + (n : Int)) = (batch.drop i).take n := by
  simp [sliceRange]

theorem chunkLoop_eq (batch : List α) (size : Int) (hs : 0 < size) :
    ∀ (fuel : Nat) (i : Nat) (chunks : List (List α)),
      batch.length - i < fuel →
      chunkLoop batch size fuel (i : Int) chunks
        = Outcome.done (chunks ++ splitEvery size.toNat (batch.drop i)) := by
  obtain ⟨n, rfl⟩ : ∃ n : Nat, size = (n : Int) := ⟨size.toNat, by omega⟩
  have hn : 0 < n := by omega
  simp only [Int.toNat_ofNat]
  intro fuel
  induction fuel with
  | zero => intro i chunks h; omega
  | succ fuel ih =>
    intro i chunks h
    unfold chunkLoop
    by_cases hi : i < batch.length
    · have hne : batch.drop i ≠ [] := by
        intro hnil
        have := congrArg List.length hnil
        simp only [List.length_drop, List.length_nil] at this
        omega
      have hcond : (i : Int) < (batch.length : Int) := by omega
      rw [if_pos hcond]
      simp only []
      have hnext : (i : Int) + (n : Int) = ((i + n : Nat) : Int) := by omega
      by_cases hend : (i : Int) + (n : Int) > (batch.length : Int)
      · rw [if_pos hend, if_pos (by omega)]
        rw [hnext, ih (i + n) _ (by omega)]
        have hslice : sliceRange batch (i : Int) (batch.length : Int) = batch.drop i := by
          have h1 : (batch.length : Int) = (i : Int) + ((batch.length - i : Nat) : Int) := by
            omega
          rw [h1, sliceRange_eq, List.take_of_length_le (by simp)]
        have hlen : (batch.drop i).length ≤ n := by
          simp only [List.length_drop]; omega
        rw [hslice, splitEvery_of_length_le n hn _ hne hlen,
          List.drop_of_length_le (show batch.length ≤ i + n by omega), splitEvery_nil,
          List.append_nil]
      · rw [if_neg hend, if_pos (by omega)]
        rw [sliceRange_eq, hnext, ih (i + n) _ (by omega)]
        rw [splitEvery_of_ne_nil n hn _ hne, List.drop_drop, List.append_assoc]
        simp [Nat.add_comm]
    · have hcond : ¬ ((i : Int) < (batch.length : Int)) := by omega
      rw [if_neg hcond, List.drop_of_length_le (by omega), splitEvery_nil, List.append_nil]

theorem chunk_eq_splitEvery (fuel : Nat) (batch : List α) (size : Int) (hs : 0 < size)
    (hfuel : batch.length < fuel) :
    chunk fuel batch size = Outcome.done (splitEvery size.toNat batch) := by
  have h := chunkLoop_eq batch size hs fuel 0 [] (by omega)
  simpa [chunk] using h


/-- With size 0 the loop of `chunk` never ends on a non-empty batch: whatever the fuel,
it runs out. -/
theorem chunkLoop_size_zero (batch : List α) (hne : 0 < batch.length) :
    ∀ (fuel : Nat) (chunks : List (List α)),
      chunkLoop batch 0 fuel 0 chunks = Outcome.outOfFuel := by
  intro fuel
  induction fuel with
  | zero => intro chunks; rfl
  | succ fuel ih =>
    intro chunks
    unfold chunkLoop
    have hcond : (0 : Int) < (batch.length : Int) := by omega
    rw [if_pos hcond]
    simp only []
    rw [if_pos (by split <;> omega)]
    simpa using ih _

/-- With a negative size the slice expression of `chunk` panics on a non-empty batch. -/
theorem chunk_negative_size : chunk 3 [1, 2] (-1) = Outcome.panicked := by
  decide

end ChunkLemmas


/-! ### `funk.Chunk` computes the consecutive sub-batches -/

section FunkChunkLemmas

variable {α : Type u}

theorem splitEvery_full_append (n : Nat) (hn : 0 < n) (item rest : List α)
    (hlen : item.length = n) (hrest : rest ≠ []) :
    splitEvery n (item ++ rest) = item :: splitEvery n rest := by
  have hne : item ++ rest ≠ [] := by simp [hrest]
  rw [splitEvery_of_ne_nil n hn _ hne, List.take_left' hlen, List.drop_left' hlen]

theorem funkChunkLoop_eq (n : Nat) (hn : 0 < n) (length : Nat) :
    ∀ (rest : List α) (i : Nat) (res : List (List α)) (item : List α),
      rest ≠ [] → i + rest.length = length → 0 < item.length → item.length ≤ n →
      i % n = item.length % n →
      funkChunkLoop (n : Int) length rest i res (some item)
        = res ++ splitEvery n (item ++ rest) := by
  intro rest
  induction rest with
  | nil => intro i res item h; exact absurd rfl h
  | cons x rest ih =>
    intro i res item _ hlen hpos hle hmod
    have hcast : ((i : Int) % (n : Int) = 0) ↔ i % n = 0 := by norm_cast
    have hlen1 : rest = [] → i + 1 = length := by
      intro h; subst h; simpa using hlen
    have hlen2 : rest ≠ [] → i + 1 ≠ length := by
      intro h heq
      have : 0 < rest.length := List.length_pos.mpr h
      simp only [List.length_cons] at hlen
      omega
    have hlen3 : i + 1 + rest.length = length := by
      simp only [List.length_cons] at hlen; omega
    unfold funkChunkLoop
    by_cases hfull : item.length = n
    · have hi0 : i % n = 0 := by rw [hmod, hfull, Nat.mod_self]
      have hcond : (i : Int) % (n : Int) = 0 ∨ i = 0 := Or.inl (hcast.mpr hi0)
      simp only [if_pos hcond, Option.map_some', List.nil_append]
      rw [splitEvery_full_append n hn item (x :: rest) hfull (by simp)]
      by_cases hrest : rest = []
      · subst hrest
        rw [if_pos (hlen1 rfl)]
        simp only [funkChunkLoop, List.nil_append]
        rw [splitEvery_of_length_le n hn [x] (by simp) (by simpa using hn)]
        simp
      · rw [if_neg (hlen2 hrest)]
        rw [ih (i + 1) (res ++ [item]) [x] hrest hlen3 (by simp) (by simpa using hn)
          (by rw [Nat.add_mod, hi0]; simp)]
        simp
    · have hlt : item.length < n := by omega
      have hi0 : i % n ≠ 0 := by rw [hmod, Nat.mod_eq_of_lt hlt]; omega
      have hcond : ¬ ((i : Int) % (n : Int) = 0 ∨ i = 0) := by
        rintro (h | h)
        · exact hi0 (hcast.mp h)
        · subst h; exact hi0 (Nat.zero_mod n)
      simp only [if_neg hcond, Option.map_some']
      by_cases hrest : rest = []
      · subst hrest
        rw [if_pos (hlen1 rfl)]
        simp only [funkChunkLoop]
        rw [splitEvery_of_length_le n hn (item ++ [x]) (by simp)
          (by simp only [List.length_append, List.length_singleton]; omega)]
      · rw [if_neg (hlen2 hrest)]
        rw [ih (i + 1) res (item ++ [x]) hrest hlen3 (by simp)
          (by simp only [List.length_append, List.length_singleton]; omega)
          (by simp only [List.length_append, List.length_singleton]
              rw [Nat.add_mod, hmod, ← Nat.add_mod])]
        simp

theorem funkChunk_eq_splitEvery (arr : List α) (size : Int) (hs : 0 < size) :
    funkChunk arr size = ChunkResult.nested (splitEvery size.toNat arr) := by
  obtain ⟨n, rfl⟩ : ∃ n : Nat, size = (n : Int) := ⟨size.toNat, by omega⟩
  have hn : 0 < n := by omega
  have hne : ¬ ((n : Int) = 0) := by omega
  simp only [funkChunk, if_neg hne, Int.toNat_ofNat]
  congr 1
  cases arr with
  | nil => rfl
  | cons x rest =>
    unfold funkChunkLoop
    simp only [or_true, if_true, Option.map_some', List.nil_append]
    by_cases hrest : rest = []
    · subst hrest
      simp only [List.length_singleton, Nat.zero_add, if_true, funkChunkLoop]
      rw [splitEvery_of_length_le n hn [x] (by simp) (by simpa using hn)]
    · have hlen : (0 : Nat) + 1 ≠ (x :: rest).length := by
        have : 0 < rest.length := List.length_pos.mpr hrest
        simp only [List.length_cons]; omega
      rw [if_neg hlen]
      rw [funkChunkLoop_eq n hn (x :: rest).length rest (0 + 1) [] [x] hrest
        (by simp only [List.length_cons]; omega) (by simp) (by simpa using hn) (by simp)]
      simp


/-- For a positive size the chunker `Write` calls and `chunk` of `pkg/ddb/reflect.go`
produce the same sub-batches. -/
theorem funkChunk_eq_chunk (fuel : Nat) (batch : List α) (size : Int) (hs : 0 < size)
    (hfuel : batch.length < fuel) :
    ∃ chunks, chunk fuel batch size = Outcome.done chunks ∧
      funkChunk batch size = ChunkResult.nested chunks :=
  ⟨splitEvery size.toNat batch, chunk_eq_splitEvery fuel batch size hs hfuel,
    funkChunk_eq_splitEvery batch size hs⟩

end FunkChunkLemmas

/-! ### The error accumulator -/

section Accumulator

theorem multierrorFlatten_eq (acc : List GoError) (x : Option GoError) :
    multierrorFlatten acc x = acc ++ multierrorFlatten [] x := by
  cases x with
  | none => simp [multierrorFlatten]
  | some e => cases e <;> simp [multierrorFlatten]

theorem multierrorAppend_single (r : Option GoError) (e : GoError) :
    multierrorAppend r [some e] = GoError.multi (multierrorFlatten [] r ++ entriesOf e) := by
  cases r with
  | none => cases e <;> simp [multierrorAppend, entriesOf, multierrorFlatten]
  | some r => cases r <;> cases e <;> simp [multierrorAppend, entriesOf, multierrorFlatten]

theorem pushAll_nil (r : Option GoError) : pushAll r [] = r := rfl

theorem pushAll_cons (r : Option GoError) (e : GoError) (es : List GoError) :
    pushAll r (e :: es) = pushAll (some (multierrorAppend r [some e])) es := rfl

theorem pushAll_append (r : Option GoError) (a b : List GoError) :
    pushAll r (a ++ b) = pushAll (pushAll r a) b := by
  simp [pushAll, List.foldl_append]

theorem pushAll_of_ne_nil (errs : List GoError) :
    ∀ r : Option GoError, errs ≠ [] →
      pushAll r errs = some (GoError.multi (multierrorFlatten [] r ++ errs.flatMap entriesOf)) := by
  induction errs with
  | nil => intro r h; exact absurd rfl h
  | cons e es ih =>
    intro r _
    rw [pushAll_cons]
    by_cases hes : es = []
    · subst hes
      simp [pushAll_nil, multierrorAppend_single]
    · rw [ih _ hes, multierrorAppend_single]
      simp [multierrorFlatten, List.flatMap_cons]

theorem pushAll_none_eq_none (errs : List GoError) : pushAll none errs = none ↔ errs = [] := by
  constructor
  · intro h
    by_contra hne
    rw [pushAll_of_ne_nil errs none hne] at h
    exact absurd h (by simp)
  · intro h; subst h; rfl

/-- Appending the aggregate of a non-empty list of errors is appending the errors. -/
theorem append_pushAll (r : Option GoError) (errs : List GoError) :
    (match pushAll none errs with
      | some err => some (multierrorAppend r [some err])
      | none => r) = pushAll r errs := by
  by_cases h : errs = []
  · subst h; rfl
  · rw [pushAll_of_ne_nil errs none h, pushAll_of_ne_nil errs r h]
    simp [multierrorAppend_single, entriesOf, multierrorFlatten]

theorem append_option (r : Option GoError) (e : Option GoError) :
    (match e with
      | some err => some (multierrorAppend r [some err])
      | none => r) = pushAll r e.toList := by
  cases e <;> rfl

end Accumulator

/-! ### The two loops -/

section Loops

variable {V σ : Type}

theorem buildSqsMessages_foldl (env : Env V) (o : SqsOutput σ) :
    ∀ (messages : List (WritableMessage V)) (st : BuildState),
      (messages.foldl (buildSqsMessagesStep env o) st).sqsMessages
          = st.sqsMessages ++ envelopesOf env o messages ∧
      (messages.foldl (buildSqsMessagesStep env o) st).result
          = pushAll st.result (buildErrorsOf env o messages) := by
  intro messages
  induction messages with
  | nil => intro st; simp [envelopesOf, buildErrorsOf, pushAll_nil]
  | cons m ms ih =>
    intro st
    rw [List.foldl_cons]
    obtain ⟨h1, h2⟩ := ih (buildSqsMessagesStep env o st m)
    rw [h1, h2]
    unfold buildSqsMessagesStep envelopesOf buildErrorsOf builtEnvelope buildError
    rcases hb : buildSqsMessage env o m with ⟨l, r⟩
    cases r with
    | error err => simp [List.filterMap_cons, hb, pushAll_cons]
    | ok v => simp [List.filterMap_cons, hb]

theorem buildSqsMessages_sqsMessages (env : Env V) (o : SqsOutput σ)
    (messages : List (WritableMessage V)) :
    (buildSqsMessages env o messages).sqsMessages = envelopesOf env o messages := by
  simpa [buildSqsMessages] using (buildSqsMessages_foldl env o messages _).1

theorem buildSqsMessages_result (env : Env V) (o : SqsOutput σ)
    (messages : List (WritableMessage V)) :
    (buildSqsMessages env o messages).result = pushAll none (buildErrorsOf env o messages) := by
  simpa [buildSqsMessages] using (buildSqsMessages_foldl env o messages _).2

theorem writeStep_foldl (env : Env V) (o : SqsOutput σ) :
    ∀ (chunks : List (List (WritableMessage V))) (st : WriteState σ),
      (chunks.foldl (writeStep env o) st).world.calls
          = st.world.calls ++ callsOf (runChunks env o st.world.queue chunks) ∧
      (chunks.foldl (writeStep env o) st).result
          = pushAll st.result
              ((runChunks env o st.world.queue chunks).flatMap (chunkErrors env o)) := by
  intro chunks
  induction chunks with
  | nil => intro st; simp [runChunks, callsOf, pushAll_nil]
  | cons c cs ih =>
    intro st
    rw [List.foldl_cons]
    obtain ⟨h1, h2⟩ := ih (writeStep env o st c)
    rw [h1, h2]
    unfold writeStep
    simp only [buildSqsMessages_sqsMessages, buildSqsMessages_result, append_pushAll]
    simp only [append_option]
    by_cases hz : (envelopesOf env o c).length = 0
    · simp [runChunks, hz, callsOf, chunkErrors, pushAll_append]
    · simp [runChunks, hz, callsOf, chunkErrors, pushAll_append]

end Loops

/-! ### `Write` against the run of its sub-batches -/

section WriteLemmas

variable {V σ : Type}

theorem funkChunk_batch (batch : List (WritableMessage V)) :
    funkChunk batch sqsOutputBatchSize = ChunkResult.nested (subBatches batch) :=
  funkChunk_eq_splitEvery batch sqsOutputBatchSize (by decide)

theorem Write_calls (env : Env V) (o : SqsOutput σ) (w : World σ)
    (batch : List (WritableMessage V)) :
    (Write env o w batch).1.calls
      = w.calls ++ callsOf (runChunks env o w.queue (subBatches batch)) := by
  have h := (writeStep_foldl env o (subBatches batch) { world := w, result := none }).1
  unfold Write
  rw [funkChunk_batch]
  simp only []
  split <;> exact h

theorem Write_result (env : Env V) (o : SqsOutput σ) (w : World σ)
    (batch : List (WritableMessage V)) :
    (Write env o w batch).2
      = (pushAll none (underlyingErrors env o w batch)).map (GoError.wrap writeErrorText) := by
  have h := (writeStep_foldl env o (subBatches batch) { world := w, result := none }).2
  unfold Write
  rw [funkChunk_batch]
  simp only []
  unfold underlyingErrors
  simp only [] at h
  rw [← h]
  split <;> rename_i heq <;> simp [heq, writeErrorText]

theorem newCalls_eq (env : Env V) (o : SqsOutput σ) (w : World σ)
    (batch : List (WritableMessage V)) :
    newCalls env o w batch = callsOf (runChunks env o w.queue (subBatches batch)) := by
  simp [newCalls, Write_calls]

theorem callsOf_messages (env : Env V) (o : SqsOutput σ) :
    ∀ (chunks : List (List (WritableMessage V))) (s : σ),
      (callsOf (runChunks env o s chunks)).map (fun c => c.messages)
        = (chunks.map (envelopesOf env o)).filter (fun ms => !ms.isEmpty) := by
  intro chunks
  induction chunks with
  | nil => intro s; rfl
  | cons c cs ih =>
    intro s
    by_cases hz : (envelopesOf env o c).length = 0
    · have he : envelopesOf env o c = [] := List.length_eq_zero.mp hz
      simp only [runChunks, hz, if_true, callsOf, List.filterMap_cons, List.map_cons]
      simpa [he, callsOf] using ih s
    · have he : envelopesOf env o c ≠ [] := fun h => hz (by simp [h])
      simp only [runChunks, hz, if_false, callsOf, List.filterMap_cons, List.map_cons]
      have := ih (o.queue.SendBatch s (envelopesOf env o c)).1
      simp only [callsOf] at this
      rw [this, List.filter_cons]
      simp [he]

theorem runChunks_chunks (env : Env V) (o : SqsOutput σ) :
    ∀ (chunks : List (List (WritableMessage V))) (s : σ),
      (runChunks env o s chunks).map (fun r => r.chunk) = chunks := by
  intro chunks
  induction chunks with
  | nil => intro s; rfl
  | cons c cs ih =>
    intro s
    by_cases hz : (envelopesOf env o c).length = 0
    · simp [runChunks, hz, ih]
    · simp [runChunks, hz, ih]

theorem buildErrorsOf_flatten (env : Env V) (o : SqsOutput σ)
    (chunks : List (List (WritableMessage V))) :
    buildErrorsOf env o chunks.flatten = chunks.flatMap (buildErrorsOf env o) := by
  induction chunks with
  | nil => rfl
  | cons c cs ih =>
    simp only [List.flatten_cons, List.flatMap_cons]
    rw [← ih]
    simp [buildErrorsOf, List.filterMap_append]

/-- The underlying errors of a run, counted: failed builds plus failed dispatches. -/
theorem runChunks_errors_length (env : Env V) (o : SqsOutput σ) :
    ∀ (chunks : List (List (WritableMessage V))) (s : σ),
      ((runChunks env o s chunks).flatMap (chunkErrors env o)).length
        = (buildErrorsOf env o chunks.flatten).length
          + ((callsOf (runChunks env o s chunks)).filter (fun c => c.err.isSome)).length := by
  intro chunks
  induction chunks with
  | nil => intro s; rfl
  | cons c cs ih =>
    intro s
    have hflat : buildErrorsOf env o (c :: cs).flatten
        = buildErrorsOf env o c ++ buildErrorsOf env o cs.flatten := by
      simp [buildErrorsOf, List.filterMap_append]
    rw [hflat]
    by_cases hz : (envelopesOf env o c).length = 0
    · simp only [runChunks, hz, if_true, List.flatMap_cons, callsOf, List.filterMap_cons,
        List.length_append, chunkErrors, List.append_nil]
      have := ih s
      simp only [callsOf] at this
      rw [this]
      omega
    · simp only [runChunks, hz, if_false, List.flatMap_cons, callsOf, List.filterMap_cons,
        List.length_append, chunkErrors]
      have := ih (o.queue.SendBatch s (envelopesOf env o c)).1
      simp only [callsOf] at this
      rw [this, List.filter_cons]
      cases (o.queue.SendBatch s (envelopesOf env o c)).2 with
      | none => simp; omega
      | some e => simp; omega

theorem buildErrorsOf_eq_nil (env : Env V) (o : SqsOutput σ)
    (messages : List (WritableMessage V)) :
    buildErrorsOf env o messages = [] ↔ ∀ m ∈ messages, builds env o m = true := by
  induction messages with
  | nil => simp [buildErrorsOf]
  | cons m ms ih =>
    simp only [buildErrorsOf] at ih
    simp only [buildErrorsOf, List.filterMap_cons, List.mem_cons, forall_eq_or_imp]
    unfold buildError builds
    cases (buildSqsMessage env o m).2 with
    | error e => simp
    | ok v => simpa using ih

theorem subBatches_flatten (batch : List (WritableMessage V)) :
    (subBatches batch).flatten = batch :=
  splitEvery_flatten _ (by decide) batch

/-- No underlying error: every message builds and every call made succeeds. -/
theorem underlyingErrors_eq_nil (env : Env V) (o : SqsOutput σ) (w : World σ)
    (batch : List (WritableMessage V)) :
    underlyingErrors env o w batch = [] ↔
      (∀ m ∈ batch, builds env o m = true) ∧ (∀ c ∈ newCalls env o w batch, c.err = none) := by
  have hlen := runChunks_errors_length env o (subBatches batch) w.queue
  rw [subBatches_flatten] at hlen
  rw [← buildErrorsOf_eq_nil, newCalls_eq]
  unfold underlyingErrors
  constructor
  · intro h
    rw [h, List.length_nil] at hlen
    constructor
    · exact List.length_eq_zero.mp (by omega)
    · intro c hc
      have h0 : ((callsOf (runChunks env o w.queue (subBatches batch))).filter
          (fun c => c.err.isSome)) = [] := List.length_eq_zero.mp (by omega)
      have hnot := (List.filter_eq_nil_iff.mp h0) c hc
      cases hcerr : c.err with
      | none => rfl
      | some e => simp [hcerr] at hnot
  · rintro ⟨hb, hc⟩
    apply List.length_eq_zero.mp
    rw [hlen, hb, List.length_nil, Nat.zero_add]
    apply List.length_eq_zero.mpr
    apply List.filter_eq_nil_iff.mpr
    intro c hcm
    simp [hc c hcm]

end WriteLemmas

/-! ### Building one message -/

section BuildLemmas

variable {V σ : Type}

theorem coerceDelay_cases (env : Env V) (attributes : List (String × V)) :
    (attributes.lookup env.AttributeSqsDelaySeconds = none ∧
        coerceDelay env attributes = Except.ok 0) ∨
    (∃ d v, attributes.lookup env.AttributeSqsDelaySeconds = some d ∧
        env.ToInt32E d = Except.ok v ∧ coerceDelay env attributes = Except.ok v) ∨
    (∃ d err text, attributes.lookup env.AttributeSqsDelaySeconds = some d ∧
        env.ToInt32E d = Except.error err ∧
        coerceDelay env attributes = Except.error (GoError.wrap text err)) := by
  unfold coerceDelay
  cases hl : attributes.lookup env.AttributeSqsDelaySeconds with
  | none => exact Or.inl ⟨rfl, rfl⟩
  | some d =>
    dsimp only
    cases hc : env.ToInt32E d with
    | ok v => exact Or.inr (Or.inl ⟨d, v, rfl, hc, rfl⟩)
    | error err => exact Or.inr (Or.inr ⟨d, err, _, rfl, hc, rfl⟩)

theorem coerceString_cases (env : Env V) (attributes : List (String × V)) (key : String) :
    (attributes.lookup key = none ∧ coerceString env attributes key = Except.ok "") ∨
    (∃ d v, attributes.lookup key = some d ∧
        env.ToStringE d = Except.ok v ∧ coerceString env attributes key = Except.ok v) ∨
    (∃ d err text, attributes.lookup key = some d ∧
        env.ToStringE d = Except.error err ∧
        coerceString env attributes key = Except.error (GoError.wrap text err)) := by
  unfold coerceString
  cases hl : attributes.lookup key with
  | none => exact Or.inl ⟨rfl, rfl⟩
  | some d =>
    dsimp only
    cases hc : env.ToStringE d with
    | ok v => exact Or.inr (Or.inl ⟨d, v, rfl, hc, rfl⟩)
    | error err => exact Or.inr (Or.inr ⟨d, err, _, rfl, hc, rfl⟩)

theorem buildSqsMessage_result (env : Env V) (o : SqsOutput σ) (msg : WritableMessage V) :
    (buildSqsMessage env o msg).2
      = buildOutcome (coerceDelay env msg.attributes)
          (coerceString env msg.attributes env.AttributeSqsMessageGroupId)
          (coerceString env msg.attributes env.AttributeSqsMessageDeduplicationId)
          msg.MarshalToString := by
  unfold buildSqsMessage buildOutcome
  dsimp only
  cases coerceDelay env msg.attributes <;>
  cases coerceString env msg.attributes env.AttributeSqsMessageGroupId <;>
  cases coerceString env msg.attributes env.AttributeSqsMessageDeduplicationId <;>
  cases msg.MarshalToString <;> rfl

theorem buildOutcome_ok (delay : Except GoError Int) (group dedup body : Except GoError String)
    (m : Message) :
    buildOutcome delay group dedup body = Except.ok m ↔
      ∃ dl g dd b, delay = Except.ok dl ∧ group = Except.ok g ∧ dedup = Except.ok dd ∧
        body = Except.ok b ∧
        m = { DelaySeconds := dl
              Body := some b
              MessageGroupId := if g != "" then some g else none
              MessageDeduplicationId := if dd != "" then some dd else none } := by
  cases delay <;> cases group <;> cases dedup <;> cases body <;> simp [buildOutcome]
  exact eq_comm

theorem buildOutcome_error (delay : Except GoError Int)
    (group dedup body : Except GoError String) :
    (∃ err, buildOutcome delay group dedup body = Except.error err) ↔
      (∃ err, delay = Except.error err) ∨ (∃ err, group = Except.error err) ∨
      (∃ err, dedup = Except.error err) ∨ (∃ err, body = Except.error err) := by
  cases delay <;> cases group <;> cases dedup <;> cases body <;> simp [buildOutcome]

theorem coerceDelay_error (env : Env V) (attributes : List (String × V)) :
    (∃ err, coerceDelay env attributes = Except.error err) ↔
      ∃ d err, attributes.lookup env.AttributeSqsDelaySeconds = some d ∧
        env.ToInt32E d = Except.error err := by
  rcases coerceDelay_cases env attributes with ⟨h1, h2⟩ | ⟨d, v, h1, h2, h3⟩ |
    ⟨d, err, text, h1, h2, h3⟩
  · simp [h1, h2]
  · simp [h1, h2, h3]
  · simp [h1, h2, h3]

theorem coerceString_error (env : Env V) (attributes : List (String × V)) (key : String) :
    (∃ err, coerceString env attributes key = Except.error err) ↔
      ∃ d err, attributes.lookup key = some d ∧ env.ToStringE d = Except.error err := by
  rcases coerceString_cases env attributes key with ⟨h1, h2⟩ | ⟨d, v, h1, h2, h3⟩ |
    ⟨d, err, text, h1, h2, h3⟩
  · simp [h1, h2]
  · simp [h1, h2, h3]
  · simp [h1, h2, h3]

/-- An optional string field of the envelope is set exactly to a non-empty coerced
attribute. -/
theorem optionalField_iff (env : Env V) (attributes : List (String × V)) (key s g : String)
    (h : coerceString env attributes key = Except.ok s) :
    (if s != "" then some s else none) = some g ↔
      g ≠ "" ∧ ∃ d, attributes.lookup key = some d ∧ env.ToStringE d = Except.ok g := by
  rcases coerceString_cases env attributes key with ⟨h1, h2⟩ | ⟨d, v, h1, h2, h3⟩ |
    ⟨d, err, text, h1, h2, h3⟩
  · rw [h2] at h
    cases h
    simp [h1]
  · rw [h3] at h
    cases h
    by_cases hs : s = ""
    · subst hs
      simp only [h1, h2, bne_self_eq_false, Bool.false_eq_true, if_false, Option.some.injEq,
        exists_eq_left', Except.ok.injEq]
      constructor
      · intro hh; cases hh
      · rintro ⟨hg, heq⟩; exact absurd heq.symm hg
    · have hb : (s != "") = true := by simpa using hs
      simp only [hb, if_true, Option.some.injEq, h1, exists_eq_left', h2, Except.ok.injEq]
      constructor
      · intro heq; subst heq; exact ⟨hs, rfl⟩
      · intro hh; exact hh.2
  · rw [h3] at h
    cases h

end BuildLemmas

/-! ## The properties of the design document -/

section Claims

/-- Claim C3: for every list of items and every size > 0, `chunk` terminates (any fuel
above the length of the list is enough, and it neither panics nor runs out) and
concatenating the sub-batches it returns, in order, gives back the input list. -/
theorem chunk_concat {α : Type u} (fuel : Nat) (batch : List α) (size : Int)
    (hsize : 0 < size) (hfuel : batch.length < fuel) :
    ∃ chunks, chunk fuel batch size = Outcome.done chunks ∧ chunks.flatten = batch :=
  ⟨splitEvery size.toNat batch, chunk_eq_splitEvery fuel batch size hsize hfuel,
    splitEvery_flatten size.toNat (by omega) batch⟩

theorem chunk_concat_witness :
    ∃ chunks, chunk 6 [1, 2, 3, 4, 5] 2 = Outcome.done chunks ∧
      chunks.flatten = [1, 2, 3, 4, 5] :=
  chunk_concat 6 [1, 2, 3, 4, 5] 2 (by decide) (by decide)

/-- Claim C4: for every list of items and every size > 0, `chunk` returns exactly
`ceil(len(items)/size)` sub-batches; every sub-batch but the last has exactly `size`
elements, the last has between 1 and `size` elements, and the empty input gives no
sub-batch. -/
theorem chunk_shape {α : Type u} (fuel : Nat) (batch : List α) (size : Int)
    (hsize : 0 < size) (hfuel : batch.length < fuel) :
    ∃ chunks, chunk fuel batch size = Outcome.done chunks ∧
      chunks.length = ceilDiv batch.length size.toNat ∧
      (∀ c ∈ chunks.dropLast, (c.length : Int) = size) ∧
      (∀ c, chunks.getLast? = some c → 1 ≤ c.length ∧ (c.length : Int) ≤ size) ∧
      (batch = [] → chunks = []) := by
  have hn : 0 < size.toNat := by omega
  refine ⟨splitEvery size.toNat batch, chunk_eq_splitEvery fuel batch size hsize hfuel,
    splitEvery_length _ hn batch, ?_, ?_, ?_⟩
  · intro c hc
    have := splitEvery_dropLast_length _ hn batch c hc
    omega
  · intro c hc
    have := splitEvery_mem_length _ hn batch c (List.mem_of_getLast?_eq_some hc)
    omega
  · intro h; subst h; rfl

theorem chunk_shape_witness :
    ∃ chunks, chunk 12 (List.range 11) 10 = Outcome.done chunks ∧
      chunks.length = ceilDiv (List.range 11).length (10 : Int).toNat ∧
      (∀ c ∈ chunks.dropLast, (c.length : Int) = 10) ∧
      (∀ c, chunks.getLast? = some c → 1 ≤ c.length ∧ (c.length : Int) ≤ 10) ∧
      (List.range 11 = [] → chunks = []) :=
  chunk_shape 12 (List.range 11) 10 (by decide) (by decide)

/-- Eleven items with size 10 give two sub-batches, of sizes 10 and 1. -/
theorem chunk_eleven :
    chunk 12 (List.range 11) 10
      = Outcome.done [[0, 1, 2, 3, 4, 5, 6, 7, 8, 9], [10]] := by
  decide

end Claims

section WriteClaims

variable {V σ : Type}

/-- Claim C1: whatever the transport and the messages do, `Write` returns nil if and only
if every message of the batch builds successfully and every call of `SendBatch` made
during the call returns no error; otherwise it returns a non-nil error. -/
theorem Write_nil_iff (env : Env V) (o : SqsOutput σ) (w : World σ)
    (batch : List (WritableMessage V)) :
    ((Write env o w batch).2 = none ↔
      (∀ m ∈ batch, builds env o m = true) ∧ (∀ c ∈ newCalls env o w batch, c.err = none)) ∧
    ((Write env o w batch).2 ≠ none ↔
      ¬ ((∀ m ∈ batch, builds env o m = true) ∧
          (∀ c ∈ newCalls env o w batch, c.err = none))) := by
  have h : (Write env o w batch).2 = none ↔
      (∀ m ∈ batch, builds env o m = true) ∧ (∀ c ∈ newCalls env o w batch, c.err = none) := by
    rw [Write_result, Option.map_eq_none', pushAll_none_eq_none, underlyingErrors_eq_nil]
  exact ⟨h, not_congr h⟩

/-- Claim C2: whatever errors the transport returns, the message lists passed to
`SendBatch` during `Write` are, in order: the batch split into consecutive sub-batches of
10, each replaced by the envelopes of its messages that build (in message order), the empty
ones dropped. The calls observed after `Write` are the earlier ones followed by these. -/
theorem Write_dispatches (env : Env V) (o : SqsOutput σ) (w : World σ)
    (batch : List (WritableMessage V)) :
    (Write env o w batch).1.calls = w.calls ++ newCalls env o w batch ∧
    (newCalls env o w batch).map (fun c => c.messages) = expectedDispatches env o batch := by
  constructor
  · rw [newCalls_eq, Write_calls]
  · rw [newCalls_eq, callsOf_messages]
    rfl

/-- Three messages of which the second has a delay attribute that cannot be coerced:
one call of `SendBatch`, carrying the two other envelopes, although the call fails. -/
theorem Write_dispatches_scenario :
    (newCalls sampleEnv (constOutput (some (GoError.leaf "send failed"))) (emptyWorld ())
        [plainMessage "a", badDelayMessage "b", plainMessage "c"]).map (fun c => c.messages)
      = [[{ DelaySeconds := 0, MessageGroupId := none, MessageDeduplicationId := none,
            Body := some "a" },
          { DelaySeconds := 0, MessageGroupId := none, MessageDeduplicationId := none,
            Body := some "c" }]] := by
  decide

/-- Claim C10: whatever the transport does, each call of `SendBatch` made by `Write`
carries at least 1 and at most `GetMaxBatchSize()` messages, and that advertised maximum
is the sub-batch size `sqsOutputBatchSize` that `Write` chunks with. -/
theorem Write_dispatch_size (env : Env V) (o : SqsOutput σ) (w : World σ)
    (batch : List (WritableMessage V)) :
    GetMaxBatchSize = sqsOutputBatchSize ∧
    ∀ c ∈ newCalls env o w batch,
      1 ≤ c.messages.length ∧ (c.messages.length : Int) ≤ GetMaxBatchSize := by
  refine ⟨rfl, ?_⟩
  intro c hc
  have hmem : c.messages ∈ (newCalls env o w batch).map (fun c => c.messages) :=
    List.mem_map_of_mem _ hc
  rw [newCalls_eq, callsOf_messages, List.mem_filter, List.mem_map] at hmem
  obtain ⟨⟨chunk, hchunk, heq⟩, hne⟩ := hmem
  have hlen := (splitEvery_mem_length sqsOutputBatchSize.toNat (by decide) batch chunk hchunk).2
  have hle : c.messages.length ≤ chunk.length := by
    rw [← heq]; exact List.length_filterMap_le _ _
  have h10 : sqsOutputBatchSize.toNat = 10 := by decide
  constructor
  · cases hm : c.messages with
    | nil => simp [hm] at hne
    | cons x xs => simp
  · show (c.messages.length : Int) ≤ 10
    omega

end WriteClaims

section WriteCorrections

variable {V σ : Type}

theorem envelopesOf_eq_nil (env : Env V) (o : SqsOutput σ)
    (messages : List (WritableMessage V)) :
    envelopesOf env o messages = [] ↔ ∀ m ∈ messages, builds env o m = false := by
  induction messages with
  | nil => simp [envelopesOf]
  | cons m ms ih =>
    simp only [envelopesOf] at ih
    simp only [envelopesOf, List.filterMap_cons, List.mem_cons, forall_eq_or_imp]
    unfold builtEnvelope builds
    cases (buildSqsMessage env o m).2 with
    | error e => simpa using ih
    | ok v => simp

theorem subBatches_small (batch : List (WritableMessage V)) (hpos : 0 < batch.length)
    (hle : batch.length ≤ 10) : subBatches batch = [batch] :=
  splitEvery_of_length_le _ (by decide) batch (List.length_pos.mp hpos) hle

/-- Counterexample to claim C8 as stated: a batch of two messages of which the second
fails to serialize, on a transport whose every call succeeds. The one sub-batch has a
message that builds and its dispatch succeeds, yet `Write` returns an error. -/
theorem Write_build_failure_counterexample :
    ¬ ((∀ c ∈ newCalls sampleEnv (constOutput none) (emptyWorld ())
            [plainMessage "a", unserializableMessage (GoError.leaf "no body")],
          c.err = none) →
        (Write sampleEnv (constOutput none) (emptyWorld ())
          [plainMessage "a", unserializableMessage (GoError.leaf "no body")]).2 = none) := by
  intro h
  have hcalls : ∀ c ∈ newCalls sampleEnv (constOutput none) (emptyWorld ())
      [plainMessage "a", unserializableMessage (GoError.leaf "no body")], c.err = none := by
    intro c hc
    have hlist : newCalls sampleEnv (constOutput none) (emptyWorld ())
        [plainMessage "a", unserializableMessage (GoError.leaf "no body")]
        = [{ messages := [{ DelaySeconds := 0, MessageGroupId := none,
                            MessageDeduplicationId := none, Body := some "a" }],
             err := none }] := rfl
    rw [hlist, List.mem_singleton] at hc
    rw [hc]
  have hres : (Write sampleEnv (constOutput none) (emptyWorld ())
      [plainMessage "a", unserializableMessage (GoError.leaf "no body")]).2
      = some (GoError.wrap writeErrorText (GoError.multi [GoError.leaf "no body"])) := rfl
  rw [hres] at h
  exact absurd (h hcalls) (by simp)

/-- Claim C8, amended: if every call of `SendBatch` made by `Write` succeeds, then `Write`
returns no error exactly when every message of the batch builds; a message that fails to
build makes `Write` return an error even though every dispatch succeeded. -/
theorem Write_all_sent_ok (env : Env V) (o : SqsOutput σ) (w : World σ)
    (batch : List (WritableMessage V))
    (hsend : ∀ c ∈ newCalls env o w batch, c.err = none) :
    (Write env o w batch).2 = none ↔ ∀ m ∈ batch, builds env o m = true := by
  rw [Write_result, Option.map_eq_none', pushAll_none_eq_none, underlyingErrors_eq_nil]
  exact ⟨fun h => h.1, fun h => ⟨h, hsend⟩⟩

theorem Write_all_sent_ok_witness :
    (Write sampleEnv (constOutput none) (emptyWorld ())
        [plainMessage "a", plainMessage "b"]).2 = none ↔
      ∀ m ∈ [plainMessage "a", plainMessage "b"],
        builds sampleEnv (constOutput none) m = true :=
  Write_all_sent_ok sampleEnv (constOutput none) (emptyWorld ())
    [plainMessage "a", plainMessage "b"] (by
      intro c hc
      have hlist : newCalls sampleEnv (constOutput none) (emptyWorld ())
          [plainMessage "a", plainMessage "b"]
          = [{ messages := [{ DelaySeconds := 0, MessageGroupId := none,
                              MessageDeduplicationId := none, Body := some "a" },
                            { DelaySeconds := 0, MessageGroupId := none,
                              MessageDeduplicationId := none, Body := some "b" }],
               err := none }] := rfl
      rw [hlist, List.mem_singleton] at hc
      rw [hc])

/-- Counterexample to claim C9 as stated: a batch of one message that fails to serialize
has a length between 1 and 10, and `Write` makes no call of `SendBatch` for it. -/
theorem Write_single_call_counterexample :
    ¬ (0 < [unserializableMessage (GoError.leaf "no body")].length →
        [unserializableMessage (GoError.leaf "no body")].length ≤ 10 →
        (newCalls sampleEnv (constOutput none) (emptyWorld ())
          [unserializableMessage (GoError.leaf "no body")]).length = 1) := by
  intro h
  have h0 : (newCalls sampleEnv (constOutput none) (emptyWorld ())
      [unserializableMessage (GoError.leaf "no body")]).length = 0 := rfl
  have h1 := h (by decide) (by decide)
  omega

/-- Claim C9, amended: for every batch with `0 < len(batch) ≤ 10`, `Write` produces
exactly one sub-batch, the batch itself, and makes exactly one call of `SendBatch` if at
least one message of the batch builds, and none if no message builds. -/
theorem Write_small_batch (env : Env V) (o : SqsOutput σ) (w : World σ)
    (batch : List (WritableMessage V)) (hpos : 0 < batch.length) (hle : batch.length ≤ 10) :
    funkChunk batch sqsOutputBatchSize = ChunkResult.nested [batch] ∧
    ((∃ m ∈ batch, builds env o m = true) → (newCalls env o w batch).length = 1) ∧
    ((∀ m ∈ batch, builds env o m = false) → (newCalls env o w batch).length = 0) := by
  have hsub := subBatches_small batch hpos hle
  refine ⟨by rw [funkChunk_batch, hsub], ?_, ?_⟩
  · rintro ⟨m, hm, hb⟩
    have hne : envelopesOf env o batch ≠ [] := by
      intro h
      have := (envelopesOf_eq_nil env o batch).mp h m hm
      rw [hb] at this
      exact absurd this (by decide)
    have hz : ¬ (envelopesOf env o batch).length = 0 := fun h => hne (List.length_eq_zero.mp h)
    rw [newCalls_eq, hsub]
    simp [runChunks, hz, callsOf]
  · intro hall
    have hnil := (envelopesOf_eq_nil env o batch).mpr hall
    rw [newCalls_eq, hsub]
    simp [runChunks, hnil, callsOf]

theorem Write_small_batch_witness :
    funkChunk [plainMessage "a", badDelayMessage "b", plainMessage "c"] sqsOutputBatchSize
        = ChunkResult.nested [[plainMessage "a", badDelayMessage "b", plainMessage "c"]] ∧
    ((∃ m ∈ [plainMessage "a", badDelayMessage "b", plainMessage "c"],
        builds sampleEnv (constOutput none) m = true) →
      (newCalls sampleEnv (constOutput none) (emptyWorld ())
        [plainMessage "a", badDelayMessage "b", plainMessage "c"]).length = 1) ∧
    ((∀ m ∈ [plainMessage "a", badDelayMessage "b", plainMessage "c"],
        builds sampleEnv (constOutput none) m = false) →
      (newCalls sampleEnv (constOutput none) (emptyWorld ())
        [plainMessage "a", badDelayMessage "b", plainMessage "c"]).length = 0) :=
  Write_small_batch sampleEnv (constOutput none) (emptyWorld ())
    [plainMessage "a", badDelayMessage "b", plainMessage "c"] (by decide) (by decide)

end WriteCorrections

section BuildClaims

variable {V σ : Type}

/-- Claim C6: when `buildSqsMessage` succeeds, the envelope has `Body` set to exactly the
string returned by `MarshalToString`; `DelaySeconds` is the coerced delay attribute when
that key is present and 0 when it is absent; `MessageGroupId` is set to a value exactly
when the group-id attribute is present and coerces to that value and the value is not
empty, and is nil otherwise (never a pointer to the empty string); the same holds for
`MessageDeduplicationId`. A message without group-id attribute gets no group id. -/
theorem buildSqsMessage_envelope (env : Env V) (o : SqsOutput σ) (msg : WritableMessage V)
    (m : Message) (h : (buildSqsMessage env o msg).2 = Except.ok m) :
    (∃ body, msg.MarshalToString = Except.ok body ∧ m.Body = some body) ∧
    (∀ d, msg.attributes.lookup env.AttributeSqsDelaySeconds = some d →
      env.ToInt32E d = Except.ok m.DelaySeconds) ∧
    (msg.attributes.lookup env.AttributeSqsDelaySeconds = none → m.DelaySeconds = 0) ∧
    (∀ g, m.MessageGroupId = some g ↔
      g ≠ "" ∧ ∃ d, msg.attributes.lookup env.AttributeSqsMessageGroupId = some d ∧
        env.ToStringE d = Except.ok g) ∧
    (∀ g, m.MessageDeduplicationId = some g ↔
      g ≠ "" ∧ ∃ d, msg.attributes.lookup env.AttributeSqsMessageDeduplicationId = some d ∧
        env.ToStringE d = Except.ok g) ∧
    (msg.attributes.lookup env.AttributeSqsMessageGroupId = none → m.MessageGroupId = none) ∧
    (msg.attributes.lookup env.AttributeSqsMessageDeduplicationId = none →
      m.MessageDeduplicationId = none) := by
  rw [buildSqsMessage_result, buildOutcome_ok] at h
  obtain ⟨dl, g, dd, b, hdl, hg, hdd, hb, hm⟩ := h
  subst hm
  have hgroup := fun x => optionalField_iff env msg.attributes _ g x hg
  have hdedup := fun x => optionalField_iff env msg.attributes _ dd x hdd
  refine ⟨⟨b, hb, rfl⟩, ?_, ?_, hgroup, hdedup, ?_, ?_⟩
  · intro d hd
    rcases coerceDelay_cases env msg.attributes with ⟨h1, _⟩ | ⟨d', v, h1, h2, h3⟩ |
      ⟨d', err, text, h1, h2, h3⟩
    · rw [h1] at hd; cases hd
    · rw [h1] at hd; cases hd
      rw [h3] at hdl; cases hdl
      exact h2
    · rw [h3] at hdl; cases hdl
  · intro hd
    rcases coerceDelay_cases env msg.attributes with ⟨_, h2⟩ | ⟨d', v, h1, h2, h3⟩ |
      ⟨d', err, text, h1, h2, h3⟩
    · rw [h2] at hdl; cases hdl; rfl
    · rw [h1] at hd; cases hd
    · rw [h1] at hd; cases hd
  · intro hnone
    cases hx : (if g != "" then some g else none : Option String) with
    | none => rfl
    | some x =>
      obtain ⟨_, d, hd, _⟩ := (hgroup x).mp hx
      rw [hnone] at hd; cases hd
  · intro hnone
    cases hx : (if dd != "" then some dd else none : Option String) with
    | none => rfl
    | some x =>
      obtain ⟨_, d, hd, _⟩ := (hdedup x).mp hx
      rw [hnone] at hd; cases hd

theorem buildSqsMessage_envelope_witness :
    (∃ body, fullMessage.MarshalToString = Except.ok body ∧
      (Message.mk 5 (some "group-1") (some "dedup-1") (some "payload")).Body = some body) ∧
    (∀ d, fullMessage.attributes.lookup sampleEnv.AttributeSqsDelaySeconds = some d →
      sampleEnv.ToInt32E d = Except.ok
        (Message.mk 5 (some "group-1") (some "dedup-1") (some "payload")).DelaySeconds) ∧
    (fullMessage.attributes.lookup sampleEnv.AttributeSqsDelaySeconds = none →
      (Message.mk 5 (some "group-1") (some "dedup-1") (some "payload")).DelaySeconds = 0) ∧
    (∀ g, (Message.mk 5 (some "group-1") (some "dedup-1") (some "payload")).MessageGroupId
        = some g ↔
      g ≠ "" ∧ ∃ d, fullMessage.attributes.lookup sampleEnv.AttributeSqsMessageGroupId
        = some d ∧ sampleEnv.ToStringE d = Except.ok g) ∧
    (∀ g, (Message.mk 5 (some "group-1") (some "dedup-1")
        (some "payload")).MessageDeduplicationId = some g ↔
      g ≠ "" ∧ ∃ d, fullMessage.attributes.lookup
        sampleEnv.AttributeSqsMessageDeduplicationId = some d ∧
        sampleEnv.ToStringE d = Except.ok g) ∧
    (fullMessage.attributes.lookup sampleEnv.AttributeSqsMessageGroupId = none →
      (Message.mk 5 (some "group-1") (some "dedup-1") (some "payload")).MessageGroupId
        = none) ∧
    (fullMessage.attributes.lookup sampleEnv.AttributeSqsMessageDeduplicationId = none →
      (Message.mk 5 (some "group-1") (some "dedup-1")
        (some "payload")).MessageDeduplicationId = none) :=
  buildSqsMessage_envelope sampleEnv (constOutput none) fullMessage
    (Message.mk 5 (some "group-1") (some "dedup-1") (some "payload")) rfl

/-- A message without attributes builds into an envelope whose group id, deduplication
id and delay are unset. -/
theorem buildSqsMessage_plain :
    (buildSqsMessage sampleEnv (constOutput none) (plainMessage "a")).2
      = Except.ok { DelaySeconds := 0, MessageGroupId := none,
                    MessageDeduplicationId := none, Body := some "a" } := rfl

/-- Claim C7: `buildSqsMessage` fails if and only if one of the three recognized
attributes is present with a value that cannot be coerced (to int32 for the delay, to
string for the two ids) or `MarshalToString` fails. The outcome does not depend on the
output and its content-based-deduplication setting (the warning never causes a failure),
nor on anything of the message but the three recognized attributes and the serialization
(absent or unrecognized keys never cause a failure); and when all coercions succeed and
`MarshalToString` fails, the error returned is exactly the serialization error. -/
theorem buildSqsMessage_fails_iff (env : Env V) (o : SqsOutput σ) (msg : WritableMessage V) :
    ((∃ err, (buildSqsMessage env o msg).2 = Except.error err) ↔
      (∃ d err, msg.attributes.lookup env.AttributeSqsDelaySeconds = some d ∧
        env.ToInt32E d = Except.error err) ∨
      (∃ d err, msg.attributes.lookup env.AttributeSqsMessageGroupId = some d ∧
        env.ToStringE d = Except.error err) ∨
      (∃ d err, msg.attributes.lookup env.AttributeSqsMessageDeduplicationId = some d ∧
        env.ToStringE d = Except.error err) ∨
      (∃ err, msg.MarshalToString = Except.error err)) ∧
    (∀ (τ : Type) (o' : SqsOutput τ),
      (buildSqsMessage env o' msg).2 = (buildSqsMessage env o msg).2) ∧
    (∀ msg' : WritableMessage V,
      msg'.attributes.lookup env.AttributeSqsDelaySeconds
        = msg.attributes.lookup env.AttributeSqsDelaySeconds →
      msg'.attributes.lookup env.AttributeSqsMessageGroupId
        = msg.attributes.lookup env.AttributeSqsMessageGroupId →
      msg'.attributes.lookup env.AttributeSqsMessageDeduplicationId
        = msg.attributes.lookup env.AttributeSqsMessageDeduplicationId →
      msg'.MarshalToString = msg.MarshalToString →
      (buildSqsMessage env o msg').2 = (buildSqsMessage env o msg).2) ∧
    (∀ err,
      (¬ ∃ d e, msg.attributes.lookup env.AttributeSqsDelaySeconds = some d ∧
        env.ToInt32E d = Except.error e) →
      (¬ ∃ d e, msg.attributes.lookup env.AttributeSqsMessageGroupId = some d ∧
        env.ToStringE d = Except.error e) →
      (¬ ∃ d e, msg.attributes.lookup env.AttributeSqsMessageDeduplicationId = some d ∧
        env.ToStringE d = Except.error e) →
      msg.MarshalToString = Except.error err →
      (buildSqsMessage env o msg).2 = Except.error err) := by
  refine ⟨?_, ?_, ?_, ?_⟩
  · rw [buildSqsMessage_result, buildOutcome_error, coerceDelay_error, coerceString_error,
      coerceString_error]
  · intro τ o'
    rw [buildSqsMessage_result, buildSqsMessage_result]
  · intro msg' h1 h2 h3 h4
    rw [buildSqsMessage_result, buildSqsMessage_result, h4]
    unfold coerceDelay coerceString
    rw [h1, h2, h3]
  · intro err h1 h2 h3 h4
    rw [← coerceDelay_error] at h1
    rw [← coerceString_error] at h2 h3
    rw [buildSqsMessage_result, h4]
    cases hd : coerceDelay env msg.attributes with
    | error e => exact absurd ⟨e, hd⟩ h1
    | ok dl =>
      cases hg : coerceString env msg.attributes env.AttributeSqsMessageGroupId with
      | error e => exact absurd ⟨e, hg⟩ h2
      | ok g =>
        cases hdd : coerceString env msg.attributes
            env.AttributeSqsMessageDeduplicationId with
        | error e => exact absurd ⟨e, hdd⟩ h3
        | ok dd => rfl

/-- A message without attributes whose serialization fails gets the serialization error
itself, also with content-based deduplication switched on. -/
theorem buildSqsMessage_unserializable :
    (buildSqsMessage sampleEnv
        { queue := constQueue none, ContentBasedDeduplication := true }
        (unserializableMessage (GoError.leaf "no body"))).2
      = Except.error (GoError.leaf "no body") := rfl

end BuildClaims

section AggregateClaims

variable {V σ : Type}

theorem entriesOf_of_not_aggregate (e : GoError) (h : e.isAggregate = false) :
    entriesOf e = [e] := by
  cases e <;> simp [GoError.isAggregate] at h <;> rfl

theorem flatMap_entriesOf (errs : List GoError) (h : ∀ e ∈ errs, e.isAggregate = false) :
    errs.flatMap entriesOf = errs := by
  induction errs with
  | nil => rfl
  | cons e es ih =>
    rw [List.flatMap_cons, entriesOf_of_not_aggregate e (h e (List.mem_cons_self _ _)),
      ih (fun x hx => h x (List.mem_cons_of_mem _ hx))]
    rfl

theorem buildOutcome_error_source (delay : Except GoError Int)
    (group dedup body : Except GoError String) (e : GoError)
    (h : buildOutcome delay group dedup body = Except.error e) :
    delay = Except.error e ∨ group = Except.error e ∨ dedup = Except.error e ∨
      body = Except.error e := by
  cases delay <;> cases group <;> cases dedup <;> cases body <;>
    simp_all [buildOutcome]

theorem coerceDelay_error_not_aggregate (env : Env V) (attributes : List (String × V))
    (e : GoError) (h : coerceDelay env attributes = Except.error e) :
    e.isAggregate = false := by
  rcases coerceDelay_cases env attributes with ⟨_, h2⟩ | ⟨_, _, _, _, h2⟩ |
    ⟨_, _, _, _, _, h2⟩
  · rw [h2] at h; cases h
  · rw [h2] at h; cases h
  · rw [h2] at h; cases h; rfl

theorem coerceString_error_not_aggregate (env : Env V) (attributes : List (String × V))
    (key : String) (e : GoError) (h : coerceString env attributes key = Except.error e) :
    e.isAggregate = false := by
  rcases coerceString_cases env attributes key with ⟨_, h2⟩ | ⟨_, _, _, _, h2⟩ |
    ⟨_, _, _, _, _, h2⟩
  · rw [h2] at h; cases h
  · rw [h2] at h; cases h
  · rw [h2] at h; cases h; rfl

theorem buildError_not_aggregate (env : Env V) (o : SqsOutput σ) (msg : WritableMessage V)
    (e : GoError) (he : buildError env o msg = some e)
    (hm : ∀ err, msg.MarshalToString = Except.error err → err.isAggregate = false) :
    e.isAggregate = false := by
  have hres : (buildSqsMessage env o msg).2 = Except.error e := by
    unfold buildError at he
    cases hr : (buildSqsMessage env o msg).2 with
    | error err => rw [hr] at he; simp at he; rw [he]
    | ok v => rw [hr] at he; simp at he
  rw [buildSqsMessage_result] at hres
  rcases buildOutcome_error_source _ _ _ _ e hres with h | h | h | h
  · exact coerceDelay_error_not_aggregate env _ e h
  · exact coerceString_error_not_aggregate env _ _ e h
  · exact coerceString_error_not_aggregate env _ _ e h
  · exact hm e h

theorem mem_subBatches (batch : List (WritableMessage V)) (c : List (WritableMessage V))
    (hc : c ∈ subBatches batch) (m : WritableMessage V) (hm : m ∈ c) : m ∈ batch := by
  rw [← subBatches_flatten batch]
  exact List.mem_flatten.mpr ⟨c, hc, hm⟩

theorem underlyingErrors_not_aggregate (env : Env V) (o : SqsOutput σ) (w : World σ)
    (batch : List (WritableMessage V))
    (hbuild : ∀ m ∈ batch, ∀ err, m.MarshalToString = Except.error err →
      err.isAggregate = false)
    (hsend : ∀ c ∈ newCalls env o w batch, ∀ err, c.err = some err →
      err.isAggregate = false) :
    ∀ e ∈ underlyingErrors env o w batch, e.isAggregate = false := by
  intro e he
  unfold underlyingErrors at he
  rw [List.mem_flatMap] at he
  obtain ⟨r, hr, hmem⟩ := he
  have hchunk : r.chunk ∈ subBatches batch := by
    have := List.mem_map_of_mem (fun r => r.chunk) hr
    rwa [runChunks_chunks] at this
  unfold chunkErrors at hmem
  rw [List.mem_append] at hmem
  rcases hmem with hmem | hmem
  · unfold buildErrorsOf at hmem
    rw [List.mem_filterMap] at hmem
    obtain ⟨m, hm, hbe⟩ := hmem
    exact buildError_not_aggregate env o m e hbe
      (hbuild m (mem_subBatches batch r.chunk hchunk m hm))
  · cases hcall : r.call with
    | none => rw [hcall] at hmem; simp at hmem
    | some c =>
      rw [hcall] at hmem
      dsimp only at hmem
      have hc : c ∈ newCalls env o w batch := by
        rw [newCalls_eq]
        unfold callsOf
        rw [List.mem_filterMap]
        exact ⟨r, hr, hcall⟩
      have herr : c.err = some e := by
        cases hce : c.err with
        | none => rw [hce] at hmem; simp at hmem
        | some x => rw [hce] at hmem; simp at hmem; rw [hmem]
      exact hsend c hc e herr

/-- The aggregate wrapped by the error of `Write` holds the entries that the underlying
errors contribute, each error that is itself an aggregate being replaced by its entries. -/
theorem Write_error_flattened (env : Env V) (o : SqsOutput σ) (w : World σ)
    (batch : List (WritableMessage V)) (e : GoError) (h : (Write env o w batch).2 = some e) :
    e = GoError.wrap writeErrorText
      (GoError.multi ((underlyingErrors env o w batch).flatMap entriesOf)) := by
  rw [Write_result] at h
  by_cases hnil : underlyingErrors env o w batch = []
  · rw [hnil] at h; simp [pushAll_nil] at h
  · rw [pushAll_of_ne_nil _ none hnil] at h
    simp [multierrorFlatten] at h
    rw [← h]

/-- Counterexample to claim C5 as stated: one plain message on a transport whose
`SendBatch` fails with an aggregate of two errors. No message fails to build and one call
fails, yet the aggregate returned by `Write` has two entries, neither of which is the
error that `SendBatch` returned. -/
theorem Write_entries_counterexample :
    ¬ (∀ e, (Write sampleEnv aggregateOutput (emptyWorld ()) [plainMessage "a"]).2 = some e →
        ∃ entries, e = GoError.wrap writeErrorText (GoError.multi entries) ∧
          entries.length
            = failedBuilds sampleEnv aggregateOutput [plainMessage "a"]
              + failedSends sampleEnv aggregateOutput (emptyWorld ()) [plainMessage "a"]) := by
  intro h
  obtain ⟨entries, heq, hlen⟩ := h
    (GoError.wrap writeErrorText
      (GoError.multi [GoError.leaf "first half", GoError.leaf "second half"])) rfl
  have hcount : failedBuilds sampleEnv aggregateOutput [plainMessage "a"]
      + failedSends sampleEnv aggregateOutput (emptyWorld ()) [plainMessage "a"] = 1 := rfl
  rw [hcount] at hlen
  injection heq with _ hmulti
  injection hmulti with hentries
  rw [← hentries] at hlen
  simp at hlen

/-- Claim C5, amended: when no `MarshalToString` error of the batch and no error returned
by `SendBatch` during the call is itself a `*multierror.Error`, the aggregate wrapped by
the error that `Write` returns lists every underlying error and nothing else: sub-batch by
sub-batch in input order, the build error of each message that failed to build (in message
order) followed by the `SendBatch` error of the sub-batch if its dispatch failed. The
number of entries is the number of messages that failed to build plus the number of calls
of `SendBatch` that failed. -/
theorem Write_error_entries (env : Env V) (o : SqsOutput σ) (w : World σ)
    (batch : List (WritableMessage V))
    (hbuild : ∀ m ∈ batch, ∀ err, m.MarshalToString = Except.error err →
      err.isAggregate = false)
    (hsend : ∀ c ∈ newCalls env o w batch, ∀ err, c.err = some err →
      err.isAggregate = false) :
    ∀ e, (Write env o w batch).2 = some e →
      e = GoError.wrap writeErrorText (GoError.multi (underlyingErrors env o w batch)) ∧
      (underlyingErrors env o w batch).length
        = failedBuilds env o batch + failedSends env o w batch := by
  intro e he
  constructor
  · rw [Write_error_flattened env o w batch e he,
      flatMap_entriesOf _ (underlyingErrors_not_aggregate env o w batch hbuild hsend)]
  · have hlen := runChunks_errors_length env o (subBatches batch) w.queue
    rw [subBatches_flatten] at hlen
    unfold failedBuilds failedSends underlyingErrors
    rw [newCalls_eq]
    exact hlen

theorem Write_error_entries_witness :
    GoError.wrap writeErrorText
        (GoError.multi [badDelayError, GoError.leaf "no body", GoError.leaf "send failed"])
      = GoError.wrap writeErrorText
          (GoError.multi (underlyingErrors sampleEnv
            (constOutput (some (GoError.leaf "send failed"))) (emptyWorld ()) mixedBatch)) ∧
    (underlyingErrors sampleEnv (constOutput (some (GoError.leaf "send failed")))
        (emptyWorld ()) mixedBatch).length
      = failedBuilds sampleEnv (constOutput (some (GoError.leaf "send failed"))) mixedBatch
        + failedSends sampleEnv (constOutput (some (GoError.leaf "send failed")))
            (emptyWorld ()) mixedBatch :=
  Write_error_entries sampleEnv (constOutput (some (GoError.leaf "send failed")))
    (emptyWorld ()) mixedBatch
    (by
      intro m hm err herr
      simp only [mixedBatch, List.mem_cons, List.mem_singleton, List.mem_nil_iff,
        or_false] at hm
      rcases hm with rfl | rfl | rfl
      · cases herr
      · cases herr
      · cases herr; rfl)
    (by
      intro c hc err herr
      have hlist : newCalls sampleEnv (constOutput (some (GoError.leaf "send failed")))
          (emptyWorld ()) mixedBatch
          = [{ messages := [{ DelaySeconds := 0, MessageGroupId := none,
                              MessageDeduplicationId := none, Body := some "a" }],
               err := some (GoError.leaf "send failed") }] := rfl
      rw [hlist, List.mem_singleton] at hc
      subst hc
      cases herr
      rfl)
    (GoError.wrap writeErrorText
      (GoError.multi [badDelayError, GoError.leaf "no body", GoError.leaf "send failed"]))
    rfl

end AggregateClaims

/-! ## Scenarios of the design document -/

section Scenarios

/-- Twelve plain messages on a transport that succeeds: two calls of `SendBatch`,
with 10 and 2 messages, and a nil result. -/
theorem Write_twelve_messages :
    (Write sampleEnv (constOutput none) (emptyWorld ()) twelveMessages).2 = none ∧
    (newCalls sampleEnv (constOutput none) (emptyWorld ()) twelveMessages).map
      (fun c => c.messages.length) = [10, 2] := by
  constructor
  · rfl
  · decide

/-- Twelve plain messages on a transport whose first call fails: the second sub-batch is
still dispatched, and the error returned holds the one dispatch error. -/
theorem Write_first_dispatch_fails :
    (Write sampleEnv firstFailsOutput (emptyWorld 0) twelveMessages).2
      = some (GoError.wrap writeErrorText (GoError.multi [GoError.leaf "send failed"])) ∧
    (newCalls sampleEnv firstFailsOutput (emptyWorld 0) twelveMessages).map
      (fun c => (c.messages.length, c.err.isSome)) = [(10, true), (2, false)] := by
  constructor
  · rfl
  · decide

end Scenarios

end Gosoline
